import Mathlib

deriving instance DecidableEq for Except

/-!
Verification of the RTFM application checker (`src/macros/src/check.rs`).

The checker consumes the parsed application model (device, `init`, `idle`,
a resource mapping, a task mapping) and either produces a verified
application or fails with a descriptive error.  This file is a shallow
embedding of that checker: the hash-based mappings and claim sets of the
source become association lists and lists of names (keys unique, iteration
order fixed by the list), `Result<T>` becomes `Except CheckError T`, and
each `bail!`/`ensure!` site becomes a dedicated `CheckError` constructor
carrying exactly the names interpolated into that site's format string.
-/

namespace Check

/-- A declared data resource (a `Static` in the front-end model): it carries
an optional initializer expression, modelled here as an uninterpreted
string.  `resource.expr.is_some()` in the source is `expr.isSome` here. -/
structure Resource where
  expr : Option String
  deriving DecidableEq

/-- The resource mapping `Statics` (resource name to definition, keys
unique), modelled as an association list. -/
abbrev Statics := List (String × Resource)

/-- `HashMap::get`: first binding of the key, if any. -/
def Statics.get : Statics → String → Option Resource
  | [], _ => none
  | (k, v) :: rest, name => if k = name then some v else Statics.get rest name

/-- `HashMap::contains_key`. -/
def Statics.containsKey (s : Statics) (name : String) : Bool :=
  (Statics.get s name).isSome

/-- The `init` block: the set of resource names `init` claims, modelled as
a list. -/
structure Init where
  resources : List String
  deriving DecidableEq

/-- The `idle` block: the set of resource names `idle` claims, modelled as
a list. -/
structure Idle where
  resources : List String
  deriving DecidableEq

/-- The reserved exception names (`enum Exception` in the source). -/
inductive Exception where
  | PENDSV
  | SVCALL
  | SYS_TICK
  deriving DecidableEq

/-- `Exception::from`: classify a task name, `none` when the name is not a
reserved exception name. -/
def Exception.fromName (s : String) : Option Exception :=
  if s = "PENDSV" then some Exception.PENDSV
  else if s = "SVCALL" then some Exception.SVCALL
  else if s = "SYS_TICK" then some Exception.SYS_TICK
  else none

/-- `Exception::nr`: the fixed numeric identifier of each exception. -/
def Exception.nr : Exception → Nat
  | Exception.PENDSV => 14
  | Exception.SVCALL => 11
  | Exception.SYS_TICK => 15

/-- `enum Kind`: a task is either a reserved exception or an interrupt with
an enabled flag. -/
inductive Kind where
  | Exception (e : Check.Exception)
  | Interrupt (enabled : Bool)
  deriving DecidableEq

/-- A raw task declaration as produced by the front end
(`syntax::check::Task`): optional enabled flag, optional handler path,
optional priority, and the set of claimed resource names. -/
structure RawTask where
  enabled : Option Bool
  path : Option String
  priority : Option Nat
  resources : List String
  deriving DecidableEq

/-- A checked task (`struct Task` in the source). -/
structure Task where
  kind : Kind
  path : String
  priority : Nat
  resources : List String
  deriving DecidableEq

/-- One constructor per `bail!`/`ensure!` site of the source, carrying the
names interpolated into that site's message.  `sharedWithIdle` and
`sharedWithTasks` carry nothing because their format strings have no
placeholder. -/
inductive CheckError where
  | resourceNotInitialized (name : String)
  | notADataResource (name : String)
  | sharedWithIdle
  | sharedWithTasks
  | unusedResource (name : String)
  | unknownResource (task : String) (resource : String)
  | invalidField
  | redundantDefault
  | missingField
  deriving DecidableEq

/-- The entity name interpolated into the error's message, when the format
string at the corresponding source site has a name placeholder at all. -/
def CheckError.namedResource : CheckError → Option String
  | CheckError.resourceNotInitialized name => some name
  | CheckError.notADataResource name => some name
  | CheckError.sharedWithIdle => none
  | CheckError.sharedWithTasks => none
  | CheckError.unusedResource name => some name
  | CheckError.unknownResource _ r => some r
  | CheckError.invalidField => none
  | CheckError.redundantDefault => none
  | CheckError.missingField => none

/-- The context messages `chain_err` wraps around an inner error. -/
inductive ErrContext where
  | checkingTask (name : String)
  | checkingResources
  deriving DecidableEq

/-- An error together with its chain of context messages (error-chain's
`chain_err`). -/
structure ChainedError where
  context : List ErrContext
  cause : CheckError
  deriving DecidableEq

/-- The checked application (`struct App` in the source). -/
structure App where
  device : String
  idle : Idle
  init : Init
  resources : Statics
  tasks : List (String × Task)
  deriving DecidableEq

/-- The raw parsed application (`syntax::check::App`). -/
structure RawApp where
  device : String
  idle : Idle
  init : Init
  resources : Statics
  tasks : List (String × RawTask)
  deriving DecidableEq

/-- `fn task`: classify the name, reject an enabled flag on exceptions
(`InvalidField`), reject an explicit `enabled: true` on interrupts
(`RedundantDefault`), then require the handler path (`MissingField`),
defaulting the priority to 1. -/
def task (name : String) (t : RawTask) : Except CheckError Task :=
  match
    (match Exception.fromName name with
     | some e =>
       if t.enabled.isNone then Except.ok (Kind.Exception e)
       else Except.error CheckError.invalidField
     | none =>
       if t.enabled == some true then Except.error CheckError.redundantDefault
       else Except.ok (Kind.Interrupt (t.enabled.getD true)))
  with
  | Except.error e => Except.error e
  | Except.ok kind =>
    match t.path with
    | some p => Except.ok ⟨kind, p, t.priority.getD 1, t.resources⟩
    | none => Except.error CheckError.missingField

/-- The first section of the loop body of `fn resources` (the `if let`):
a name claimed by `init` must be a declared data resource and must have an
initial value. -/
def checkInitData (statics : Statics) (name : String) : Except CheckError Unit :=
  match Statics.get statics name with
  | some resource =>
    if resource.expr.isSome then Except.ok ()
    else Except.error (CheckError.resourceNotInitialized name)
  | none => Except.error (CheckError.notADataResource name)

/-- The full loop body of the first loop of `fn resources`: the data check,
then the `idle` sharing check, then the task sharing check, in source
order. -/
def checkInitName (a : App) (name : String) : Except CheckError Unit :=
  match checkInitData a.resources name with
  | Except.error e => Except.error e
  | Except.ok _ =>
    if a.idle.resources.contains name then Except.error CheckError.sharedWithIdle
    else if a.tasks.all (fun t => !(t.2.resources.contains name)) then Except.ok ()
    else Except.error CheckError.sharedWithTasks

/-- The first loop of `fn resources` (pass A): `for name in
&app.init.resources`, propagating the first failure. -/
def checkInitResources (a : App) : List String → Except CheckError Unit
  | [] => Except.ok ()
  | n :: ns =>
    match checkInitName a n with
    | Except.error e => Except.error e
    | Except.ok _ => checkInitResources a ns

/-- Whether a declared resource name is claimed by `init`, `idle`, or some
task (the three `continue` conditions of the second loop). -/
def isClaimed (a : App) (name : String) : Bool :=
  a.init.resources.contains name || a.idle.resources.contains name ||
    a.tasks.any (fun t => t.2.resources.contains name)

/-- The second loop of `fn resources` (pass B): every declared resource
must be claimed somewhere, else `resource is unused`. -/
def checkUnused (a : App) : List (String × Resource) → Except CheckError Unit
  | [] => Except.ok ()
  | (name, _) :: rest =>
    if a.init.resources.contains name then checkUnused a rest
    else if a.idle.resources.contains name then checkUnused a rest
    else if a.tasks.any (fun t => t.2.resources.contains name) then checkUnused a rest
    else Except.error (CheckError.unusedResource name)

/-- The inner loop of the third loop of `fn resources`: every resource name
claimed by a task must be declared. -/
def checkTaskRefs1 (statics : Statics) (tname : String) :
    List String → Except CheckError Unit
  | [] => Except.ok ()
  | r :: rs =>
    if Statics.containsKey statics r then checkTaskRefs1 statics tname rs
    else Except.error (CheckError.unknownResource tname r)

/-- The third loop of `fn resources` (pass C): `for (name, task) in
&app.tasks`. -/
def checkTaskRefs (a : App) : List (String × Task) → Except CheckError Unit
  | [] => Except.ok ()
  | (tname, t) :: rest =>
    match checkTaskRefs1 a.resources tname t.resources with
    | Except.error e => Except.error e
    | Except.ok _ => checkTaskRefs a rest

/-- `fn resources`: the three passes in source order, stopping at the first
pass that fails. -/
def resources (a : App) : Except CheckError Unit :=
  match checkInitResources a a.init.resources with
  | Except.error e => Except.error e
  | Except.ok _ =>
    match checkUnused a a.resources with
    | Except.error e => Except.error e
    | Except.ok _ => checkTaskRefs a a.tasks

/-- The task mapping step of `fn app`: run `task` on every raw task,
wrapping a failure in the `checking task` context naming that task. -/
def checkTasks : List (String × RawTask) → Except ChainedError (List (String × Task))
  | [] => Except.ok []
  | (k, v) :: rest =>
    match task k v with
    | Except.error e => Except.error ⟨[ErrContext.checkingTask k], e⟩
    | Except.ok t =>
      match checkTasks rest with
      | Except.error e => Except.error e
      | Except.ok ts => Except.ok ((k, t) :: ts)

/-- `fn app`: build every task, assemble the application, then run the
resource validator, wrapping its failure in the fixed `checking resources`
context. -/
def app (a : RawApp) : Except ChainedError App :=
  match checkTasks a.tasks with
  | Except.error e => Except.error e
  | Except.ok ts =>
    let application : App := ⟨a.device, a.idle, a.init, a.resources, ts⟩
    match resources application with
    | Except.error e => Except.error ⟨[ErrContext.checkingResources], e⟩
    | Except.ok _ => Except.ok application

/-- The violation an elementary check reports, if any. -/
def violationOf : Except CheckError Unit → Option CheckError
  | Except.ok _ => none
  | Except.error e => some e

/-- All violations pass A finds, scanning every name claimed by `init`
(total-scan semantics of the first loop). -/
def passAViolations (a : App) : List CheckError :=
  a.init.resources.filterMap (fun n => violationOf (checkInitName a n))

/-- All violations pass B finds, scanning every declared resource
(total-scan semantics of the second loop). -/
def passBViolations (a : App) : List CheckError :=
  a.resources.filterMap (fun p =>
    if isClaimed a p.1 then none else some (CheckError.unusedResource p.1))

/-- All violations pass C finds, scanning every resource name claimed by
every task (total-scan semantics of the third loop). -/
def passCViolations (a : App) : List CheckError :=
  (a.tasks.map (fun p => p.2.resources.filterMap (fun r =>
    if Statics.containsKey a.resources r then none
    else some (CheckError.unknownResource p.1 r)))).flatten

/-- The outcome of a total pass: succeed when the scan found no violation,
otherwise report the first violation found. -/
def firstError : List CheckError → Except CheckError Unit
  | [] => Except.ok ()
  | e :: _ => Except.error e

/-- Sequencing of a total pass with the rest of the validator: a later pass
runs only when the earlier pass found no violation at all. -/
def seqPass (errs : List CheckError) (k : Except CheckError Unit) :
    Except CheckError Unit :=
  match errs with
  | [] => k
  | e :: _ => Except.error e

/-! ## Basic lemmas -/

theorem contains_iff {l : List String} {n : String} :
    l.contains n = true ↔ n ∈ l :=
  List.elem_iff

theorem contains_eq_true {l : List String} {n : String} (h : n ∈ l) :
    l.contains n = true :=
  contains_iff.mpr h

theorem contains_eq_false {l : List String} {n : String} (h : n ∉ l) :
    l.contains n = false := by
  cases hc : l.contains n
  · rfl
  · exact absurd (contains_iff.mp hc) h

theorem containsKey_of_mem {s : Statics} {name : String} {r : Resource}
    (h : (name, r) ∈ s) : Statics.containsKey s name = true := by
  induction s with
  | nil => cases h
  | cons p rest ih =>
    obtain ⟨k, v⟩ := p
    unfold Statics.containsKey Statics.get
    by_cases hk : k = name
    · simp [hk]
    · simp only [hk, if_false]
      refine ih ?_
      rcases List.mem_cons.mp h with heq | hmem
      · exact absurd (congrArg Prod.fst heq).symm hk
      · exact hmem

theorem get_eq_none_of_not_containsKey {s : Statics} {name : String}
    (h : Statics.containsKey s name = false) : Statics.get s name = none := by
  unfold Statics.containsKey at h
  cases hg : Statics.get s name with
  | none => rfl
  | some r => rw [hg] at h; simp at h

theorem checkInitName_ok_iff (a : App) (n : String) :
    checkInitName a n = Except.ok () ↔
      checkInitData a.resources n = Except.ok () ∧
      n ∉ a.idle.resources ∧
      ∀ p ∈ a.tasks, n ∉ p.2.resources := by
  cases h : checkInitData a.resources n with
  | error e => simp [checkInitName, h]
  | ok u =>
    cases u
    by_cases hi : n ∈ a.idle.resources
    · simp [checkInitName, h, hi]
    · by_cases ht : ∀ p ∈ a.tasks, n ∉ p.2.resources
      · simp [checkInitName, h, hi, List.all_eq_true, ht]
      · simp [checkInitName, h, hi, List.all_eq_true, ht]

theorem checkInitResources_ok_iff (a : App) (l : List String) :
    checkInitResources a l = Except.ok () ↔
      ∀ n ∈ l, checkInitName a n = Except.ok () := by
  induction l with
  | nil => simp [checkInitResources]
  | cons n ns ih =>
    cases h : checkInitName a n with
    | error e => simp [checkInitResources, h]
    | ok u => cases u; simp [checkInitResources, h, ih]

theorem checkUnused_cons (a : App) (name : String) (r : Resource)
    (rest : List (String × Resource)) :
    checkUnused a ((name, r) :: rest) =
      if isClaimed a name then checkUnused a rest
      else Except.error (CheckError.unusedResource name) := by
  simp only [checkUnused, isClaimed]
  by_cases h1 : name ∈ a.init.resources
  · simp [h1, contains_eq_true h1]
  · by_cases h2 : name ∈ a.idle.resources
    · simp [h1, h2, contains_eq_false h1, contains_eq_true h2]
    · simp [h1, h2]
      exact if_congr
        (by rw [contains_eq_false h1, contains_eq_false h2, Bool.false_or, Bool.false_or])
        rfl rfl

theorem checkUnused_ok_iff (a : App) (l : List (String × Resource)) :
    checkUnused a l = Except.ok () ↔ ∀ p ∈ l, isClaimed a p.1 = true := by
  induction l with
  | nil => simp [checkUnused]
  | cons p rest ih =>
    obtain ⟨name, r⟩ := p
    rw [checkUnused_cons]
    cases hc : isClaimed a name
    · simp [hc]
    · simp [hc, ih]

theorem checkTaskRefs1_ok_iff (s : Statics) (tn : String) (l : List String) :
    checkTaskRefs1 s tn l = Except.ok () ↔
      ∀ r ∈ l, Statics.containsKey s r = true := by
  induction l with
  | nil => simp [checkTaskRefs1]
  | cons r rs ih =>
    cases h : Statics.containsKey s r <;> simp [checkTaskRefs1, h, ih]

theorem checkTaskRefs_ok_iff (a : App) (l : List (String × Task)) :
    checkTaskRefs a l = Except.ok () ↔
      ∀ p ∈ l, checkTaskRefs1 a.resources p.1 p.2.resources = Except.ok () := by
  induction l with
  | nil => simp [checkTaskRefs]
  | cons p rest ih =>
    obtain ⟨tn, t⟩ := p
    cases h : checkTaskRefs1 a.resources tn t.resources with
    | error e => simp [checkTaskRefs, h]
    | ok u => cases u; simp [checkTaskRefs, h, ih]

theorem resources_ok_iff (a : App) :
    resources a = Except.ok () ↔
      checkInitResources a a.init.resources = Except.ok () ∧
      checkUnused a a.resources = Except.ok () ∧
      checkTaskRefs a a.tasks = Except.ok () := by
  cases h1 : checkInitResources a a.init.resources with
  | error e => simp [resources, h1]
  | ok u =>
    cases u
    cases h2 : checkUnused a a.resources with
    | error e => simp [resources, h1, h2]
    | ok v => cases v; simp [resources, h1, h2]

theorem resources_error_passA (a : App) (e : CheckError)
    (h : checkInitResources a a.init.resources = Except.error e) :
    resources a = Except.error e := by
  simp [resources, h]

theorem resources_error_passB (a : App) (e : CheckError)
    (h1 : checkInitResources a a.init.resources = Except.ok ())
    (h2 : checkUnused a a.resources = Except.error e) :
    resources a = Except.error e := by
  simp [resources, h1, h2]

theorem resources_eq_passC (a : App)
    (h1 : checkInitResources a a.init.resources = Except.ok ())
    (h2 : checkUnused a a.resources = Except.ok ()) :
    resources a = checkTaskRefs a a.tasks := by
  simp [resources, h1, h2]

theorem exists_error_of_ne_ok {x : Except CheckError Unit}
    (h : x ≠ Except.ok ()) : ∃ e, x = Except.error e := by
  cases x with
  | error e => exact ⟨e, rfl⟩
  | ok u => cases u; exact absurd rfl h

theorem checkInitResources_conflict (a : App) (l : List String)
    (hdata : ∀ n ∈ l, checkInitData a.resources n = Except.ok ())
    (hconf : ∃ n ∈ l, n ∈ a.idle.resources ∨ ∃ p ∈ a.tasks, n ∈ p.2.resources) :
    checkInitResources a l = Except.error CheckError.sharedWithIdle ∨
      checkInitResources a l = Except.error CheckError.sharedWithTasks := by
  induction l with
  | nil => simp at hconf
  | cons n ns ih =>
    have hd : checkInitData a.resources n = Except.ok () :=
      hdata n (List.mem_cons_self n ns)
    by_cases hi : n ∈ a.idle.resources
    · left
      simp [checkInitResources, checkInitName, hd, hi]
    · by_cases ht : ∀ p ∈ a.tasks, n ∉ p.2.resources
      · have hok : checkInitName a n = Except.ok () :=
          (checkInitName_ok_iff a n).mpr ⟨hd, hi, ht⟩
        have htail : ∃ m ∈ ns, m ∈ a.idle.resources ∨
            ∃ p ∈ a.tasks, m ∈ p.2.resources := by
          rcases hconf with ⟨m, hm, hcs⟩
          rcases List.mem_cons.mp hm with rfl | hm
          · rcases hcs with hmi | ⟨p, hp, hmem⟩
            · exact absurd hmi hi
            · exact absurd hmem (ht p hp)
          · exact ⟨m, hm, hcs⟩
        have hrec := ih (fun m hm => hdata m (List.mem_cons.mpr (Or.inr hm))) htail
        simpa [checkInitResources, hok] using hrec
      · right
        have hall : (a.tasks.all fun t => !t.2.resources.contains n) = false := by
          cases hb : a.tasks.all fun t => !t.2.resources.contains n
          · rfl
          · exfalso
            apply ht
            intro p hp hmem
            have h2 := List.all_eq_true.mp hb p hp
            rw [contains_eq_true hmem] at h2
            simp at h2
        have hname : checkInitName a n = Except.error CheckError.sharedWithTasks := by
          rw [checkInitName, hd]
          rw [hall]
          simp [hi]
        simp [checkInitResources, hname]

theorem checkUnused_conflict (a : App) (l : List (String × Resource))
    (h : ∃ p ∈ l, isClaimed a p.1 = false) :
    ∃ n, checkUnused a l = Except.error (CheckError.unusedResource n) ∧
      (∃ r, (n, r) ∈ l) ∧ isClaimed a n = false := by
  induction l with
  | nil => simp at h
  | cons p rest ih =>
    obtain ⟨name, r⟩ := p
    rw [checkUnused_cons]
    cases hc : isClaimed a name with
    | false =>
      exact ⟨name, by simp, ⟨r, List.mem_cons_self (name, r) rest⟩, hc⟩
    | true =>
      have htail : ∃ q ∈ rest, isClaimed a q.1 = false := by
        rcases h with ⟨q, hq, hqf⟩
        rcases List.mem_cons.mp hq with rfl | hq
        · rw [hc] at hqf; cases hqf
        · exact ⟨q, hq, hqf⟩
      obtain ⟨n, he, ⟨r', hr'⟩, hcl⟩ := ih htail
      exact ⟨n, by simpa using he, ⟨r', List.mem_cons.mpr (Or.inr hr')⟩, hcl⟩

theorem checkTaskRefs1_error (s : Statics) (tn : String) (l : List String)
    (e : CheckError) (h : checkTaskRefs1 s tn l = Except.error e) :
    ∃ r, e = CheckError.unknownResource tn r ∧ r ∈ l ∧
      Statics.containsKey s r = false := by
  induction l with
  | nil => simp [checkTaskRefs1] at h
  | cons r rs ih =>
    cases hc : Statics.containsKey s r with
    | true =>
      rw [checkTaskRefs1] at h
      rw [hc] at h
      simp at h
      obtain ⟨x, hx1, hx2, hx3⟩ := ih h
      exact ⟨x, hx1, List.mem_cons.mpr (Or.inr hx2), hx3⟩
    | false =>
      rw [checkTaskRefs1] at h
      rw [hc] at h
      simp at h
      exact ⟨r, h.symm, List.mem_cons_self r rs, hc⟩

theorem checkTaskRefs_conflict (a : App) (l : List (String × Task))
    (h : ∃ p ∈ l, ∃ r ∈ p.2.resources, Statics.containsKey a.resources r = false) :
    ∃ tn r, checkTaskRefs a l = Except.error (CheckError.unknownResource tn r) ∧
      (∃ t, (tn, t) ∈ l ∧ r ∈ t.resources) ∧
      Statics.containsKey a.resources r = false := by
  induction l with
  | nil => simp at h
  | cons p rest ih =>
    obtain ⟨tn, t⟩ := p
    cases hc : checkTaskRefs1 a.resources tn t.resources with
    | error e =>
      obtain ⟨r, rfl, hr2, hr3⟩ := checkTaskRefs1_error a.resources tn t.resources e hc
      exact ⟨tn, r, by simp [checkTaskRefs, hc],
        ⟨t, List.mem_cons_self (tn, t) rest, hr2⟩, hr3⟩
    | ok u =>
      cases u
      have hhead := (checkTaskRefs1_ok_iff a.resources tn t.resources).mp hc
      have htail : ∃ p ∈ rest, ∃ r ∈ p.2.resources,
          Statics.containsKey a.resources r = false := by
        rcases h with ⟨q, hq, r, hr, hrf⟩
        rcases List.mem_cons.mp hq with rfl | hq
        · rw [hhead r hr] at hrf; cases hrf
        · exact ⟨q, hq, r, hr, hrf⟩
      obtain ⟨tn', r', he, ⟨t', ht', hr'⟩, hf⟩ := ih htail
      exact ⟨tn', r', by simp [checkTaskRefs, hc, he],
        ⟨t', List.mem_cons.mpr (Or.inr ht'), hr'⟩, hf⟩

theorem checkInitResources_error (a : App) (l : List String) (e : CheckError)
    (h : checkInitResources a l = Except.error e) :
    ∃ n ∈ l, checkInitName a n = Except.error e := by
  induction l with
  | nil => simp [checkInitResources] at h
  | cons n ns ih =>
    cases hc : checkInitName a n with
    | error e' =>
      rw [checkInitResources, hc] at h
      simp at h
      exact ⟨n, List.mem_cons_self n ns, by rw [hc, h]⟩
    | ok u =>
      cases u
      rw [checkInitResources, hc] at h
      obtain ⟨m, hm, hmer⟩ := ih h
      exact ⟨m, List.mem_cons.mpr (Or.inr hm), hmer⟩

theorem checkInitName_error (a : App) (n : String) (e : CheckError)
    (h : checkInitName a n = Except.error e) :
    e = CheckError.resourceNotInitialized n ∨ e = CheckError.notADataResource n ∨
      e = CheckError.sharedWithIdle ∨ e = CheckError.sharedWithTasks := by
  cases hd : checkInitData a.resources n with
  | error e' =>
    rw [checkInitName, hd] at h
    simp at h
    subst h
    unfold checkInitData at hd
    cases hg : Statics.get a.resources n with
    | some r =>
      rw [hg] at hd
      by_cases he : r.expr.isSome = true
      · simp [he] at hd
      · simp [he] at hd
        exact Or.inl hd.symm
    | none =>
      rw [hg] at hd
      simp at hd
      exact Or.inr (Or.inl hd.symm)
  | ok u =>
    cases u
    rw [checkInitName, hd] at h
    by_cases hi : n ∈ a.idle.resources
    · simp [hi] at h
      exact Or.inr (Or.inr (Or.inl h.symm))
    · by_cases ht : ∀ p ∈ a.tasks, n ∉ p.2.resources
      · have hall : (a.tasks.all fun t => !t.2.resources.contains n) = true :=
          List.all_eq_true.mpr (fun p hp => by rw [contains_eq_false (ht p hp)]; rfl)
        rw [hall] at h
        simp [hi] at h
      · have hall : (a.tasks.all fun t => !t.2.resources.contains n) = false := by
          cases hb : a.tasks.all fun t => !t.2.resources.contains n
          · rfl
          · exfalso
            apply ht
            intro p hp hmem
            have h2 := List.all_eq_true.mp hb p hp
            rw [contains_eq_true hmem] at h2
            simp at h2
        rw [hall] at h
        simp [hi] at h
        exact Or.inr (Or.inr (Or.inr h.symm))

theorem checkUnused_error (a : App) (l : List (String × Resource)) (e : CheckError)
    (h : checkUnused a l = Except.error e) :
    ∃ n, e = CheckError.unusedResource n := by
  induction l with
  | nil => simp [checkUnused] at h
  | cons p rest ih =>
    obtain ⟨name, r⟩ := p
    rw [checkUnused_cons] at h
    cases hc : isClaimed a name with
    | false =>
      rw [hc] at h
      simp at h
      exact ⟨name, h.symm⟩
    | true =>
      rw [hc] at h
      simp at h
      exact ih h

theorem checkTaskRefs_error (a : App) (l : List (String × Task)) (e : CheckError)
    (h : checkTaskRefs a l = Except.error e) :
    ∃ tn r, e = CheckError.unknownResource tn r := by
  induction l with
  | nil => simp [checkTaskRefs] at h
  | cons p rest ih =>
    obtain ⟨tn, t⟩ := p
    cases hc : checkTaskRefs1 a.resources tn t.resources with
    | error e' =>
      rw [checkTaskRefs, hc] at h
      simp at h
      subst h
      obtain ⟨r, hr, _, _⟩ := checkTaskRefs1_error a.resources tn t.resources e' hc
      exact ⟨tn, r, hr⟩
    | ok u =>
      cases u
      rw [checkTaskRefs, hc] at h
      exact ih h

theorem resources_error_shape (a : App) (e : CheckError)
    (h : resources a = Except.error e) :
    (CheckError.namedResource e).isSome = true ∨
      e = CheckError.sharedWithIdle ∨ e = CheckError.sharedWithTasks := by
  cases h1 : checkInitResources a a.init.resources with
  | error e' =>
    rw [resources, h1] at h
    simp at h
    subst h
    obtain ⟨n, _, hn⟩ := checkInitResources_error a a.init.resources e' h1
    rcases checkInitName_error a n e' hn with rfl | rfl | rfl | rfl
    · exact Or.inl rfl
    · exact Or.inl rfl
    · exact Or.inr (Or.inl rfl)
    · exact Or.inr (Or.inr rfl)
  | ok u =>
    cases u
    rw [resources, h1] at h
    cases h2 : checkUnused a a.resources with
    | error e' =>
      rw [h2] at h
      simp at h
      subst h
      obtain ⟨n, rfl⟩ := checkUnused_error a a.resources e' h2
      exact Or.inl rfl
    | ok v =>
      cases v
      rw [h2] at h
      obtain ⟨tn, r, rfl⟩ := checkTaskRefs_error a a.tasks e h
      exact Or.inl rfl

theorem checkTasks_error (l : List (String × RawTask)) (ce : ChainedError)
    (h : checkTasks l = Except.error ce) :
    ∃ k v, (k, v) ∈ l ∧ task k v = Except.error ce.cause ∧
      ce.context = [ErrContext.checkingTask k] := by
  induction l with
  | nil => simp [checkTasks] at h
  | cons p rest ih =>
    obtain ⟨k, v⟩ := p
    cases hc : task k v with
    | error e =>
      rw [checkTasks, hc] at h
      simp at h
      subst h
      exact ⟨k, v, List.mem_cons_self (k, v) rest, by rw [hc], rfl⟩
    | ok t =>
      rw [checkTasks, hc] at h
      cases hr : checkTasks rest with
      | error e' =>
        rw [hr] at h
        simp at h
        subst h
        obtain ⟨k', v', hm, ht', hctx⟩ := ih hr
        exact ⟨k', v', List.mem_cons.mpr (Or.inr hm), ht', hctx⟩
      | ok ts =>
        rw [hr] at h
        simp at h

theorem isClaimed_iff (a : App) (n : String) :
    isClaimed a n = true ↔
      n ∈ a.init.resources ∨ n ∈ a.idle.resources ∨
        ∃ p ∈ a.tasks, n ∈ p.2.resources := by
  simp [isClaimed, Bool.or_eq_true, contains_iff, List.any_eq_true]
  tauto

/-! ## Claim theorems -/

/-- C1: in every application the resource validator accepts, the set of
resource names claimed by `init` is disjoint from `idle`'s claim set and
from every task's claim set; an input in which an `init`-claimed resource
is also claimed by `idle` or by some task is rejected, and — whenever the
data checks on the `init` claims pass, so that the conflict check is the
one that fires — it is rejected with one of the two sharing-conflict
(`ResourceConflict`) errors. -/
theorem c1_init_exclusivity :
    (∀ a : App, resources a = Except.ok () →
      ∀ n ∈ a.init.resources, n ∉ a.idle.resources ∧
        ∀ p ∈ a.tasks, n ∉ p.2.resources) ∧
    (∀ a : App,
      (∃ n ∈ a.init.resources, n ∈ a.idle.resources ∨
        ∃ p ∈ a.tasks, n ∈ p.2.resources) →
      ∃ e, resources a = Except.error e) ∧
    (∀ a : App,
      (∀ n ∈ a.init.resources, checkInitData a.resources n = Except.ok ()) →
      (∃ n ∈ a.init.resources, n ∈ a.idle.resources ∨
        ∃ p ∈ a.tasks, n ∈ p.2.resources) →
      resources a = Except.error CheckError.sharedWithIdle ∨
        resources a = Except.error CheckError.sharedWithTasks) := by
  refine ⟨?_, ?_, ?_⟩
  · intro a hok n hn
    have h1 := (resources_ok_iff a).mp hok
    have h3 := (checkInitName_ok_iff a n).mp
      ((checkInitResources_ok_iff a a.init.resources).mp h1.1 n hn)
    exact ⟨h3.2.1, h3.2.2⟩
  · intro a hconf
    apply exists_error_of_ne_ok
    intro hok
    have h1 := (resources_ok_iff a).mp hok
    obtain ⟨n, hn, hcs⟩ := hconf
    have h3 := (checkInitName_ok_iff a n).mp
      ((checkInitResources_ok_iff a a.init.resources).mp h1.1 n hn)
    rcases hcs with hni | ⟨p, hp, hmem⟩
    · exact h3.2.1 hni
    · exact h3.2.2 p hp hmem
  · intro a hdata hconf
    rcases checkInitResources_conflict a a.init.resources hdata hconf with h | h
    · exact Or.inl (resources_error_passA a _ h)
    · exact Or.inr (resources_error_passA a _ h)

/-- Witness for C1: the accepted application of Scenario A and the
conflicting application of Scenario B. -/
theorem c1_init_exclusivity_witness :
    ("A" ∉ (Idle.mk []).resources) ∧
    (∃ e, resources ⟨"dev", ⟨[]⟩, ⟨["A"]⟩, [("A", ⟨some "0"⟩)],
      [("EXTI0", ⟨Kind.Interrupt true, "exti0", 1, ["A"]⟩)]⟩ =
        Except.error e) ∧
    (resources ⟨"dev", ⟨[]⟩, ⟨["A"]⟩, [("A", ⟨some "0"⟩)],
        [("EXTI0", ⟨Kind.Interrupt true, "exti0", 1, ["A"]⟩)]⟩ =
          Except.error CheckError.sharedWithIdle ∨
      resources ⟨"dev", ⟨[]⟩, ⟨["A"]⟩, [("A", ⟨some "0"⟩)],
        [("EXTI0", ⟨Kind.Interrupt true, "exti0", 1, ["A"]⟩)]⟩ =
          Except.error CheckError.sharedWithTasks) := by
  refine ⟨?_, ?_, ?_⟩
  · exact (c1_init_exclusivity.1
      ⟨"dev", ⟨[]⟩, ⟨["A"]⟩, [("A", ⟨some "0"⟩)],
        [("PENDSV", ⟨Kind.Exception Exception.PENDSV, "pendsv", 1, []⟩)]⟩
      (by decide) "A" (by decide)).1
  · exact c1_init_exclusivity.2.1 _
      ⟨"A", by decide,
        Or.inr ⟨("EXTI0", ⟨Kind.Interrupt true, "exti0", 1, ["A"]⟩),
          by decide, by decide⟩⟩
  · exact c1_init_exclusivity.2.2 _ (by decide)
      ⟨"A", by decide,
        Or.inr ⟨("EXTI0", ⟨Kind.Interrupt true, "exti0", 1, ["A"]⟩),
          by decide, by decide⟩⟩

/-- C2: for a name claimed by `init`, absence from the resource mapping
fails with the `must be a data resource` error, presence without an
initializer fails with `ResourceNotInitialized` naming the resource,
presence with an initializer passes this check; and a failing data check
on an `init` claim makes the whole validator reject. -/
theorem c2_init_requires_initializer :
    (∀ (s : Statics) (n : String), Statics.get s n = none →
      checkInitData s n = Except.error (CheckError.notADataResource n)) ∧
    (∀ (s : Statics) (n : String) (r : Resource),
      Statics.get s n = some r → r.expr = none →
      checkInitData s n = Except.error (CheckError.resourceNotInitialized n)) ∧
    (∀ (s : Statics) (n : String) (r : Resource),
      Statics.get s n = some r → (r.expr).isSome = true →
      checkInitData s n = Except.ok ()) ∧
    (∀ (a : App) (n : String), n ∈ a.init.resources →
      checkInitData a.resources n ≠ Except.ok () →
      ∃ e, resources a = Except.error e) := by
  refine ⟨?_, ?_, ?_, ?_⟩
  · intro s n hg
    simp [checkInitData, hg]
  · intro s n r hg he
    simp [checkInitData, hg, he]
  · intro s n r hg he
    simp [checkInitData, hg, he]
  · intro a n hn hne
    apply exists_error_of_ne_ok
    intro hok
    exact hne ((checkInitName_ok_iff a n).mp
      ((checkInitResources_ok_iff a a.init.resources).mp
        ((resources_ok_iff a).mp hok).1 n hn)).1

/-- Witness for C2: an undeclared name, the uninitialized resource of
Scenario C, an initialized resource, and rejection of Scenario C's
application. -/
theorem c2_init_requires_initializer_witness :
    checkInitData [("A", ⟨some "0"⟩)] "B" =
      Except.error (CheckError.notADataResource "B") ∧
    checkInitData [("A", ⟨none⟩)] "A" =
      Except.error (CheckError.resourceNotInitialized "A") ∧
    checkInitData [("A", ⟨some "0"⟩)] "A" = Except.ok () ∧
    (∃ e, resources ⟨"dev", ⟨[]⟩, ⟨["A"]⟩, [("A", ⟨none⟩)], []⟩ =
      Except.error e) := by
  refine ⟨?_, ?_, ?_, ?_⟩
  · exact c2_init_requires_initializer.1 _ "B" (by decide)
  · exact c2_init_requires_initializer.2.1 _ "A" ⟨none⟩ (by decide) rfl
  · exact c2_init_requires_initializer.2.2.1 _ "A" ⟨some "0"⟩ (by decide) rfl
  · exact c2_init_requires_initializer.2.2.2 _ "A" (by decide) (by decide)

/-- C3: every application the resource validator accepts has every
declared resource claimed by `init`, `idle`, or some task; and when the
`init` pass succeeds but some declared resource is claimed by nobody, the
validator fails with `UnusedResource` naming an unclaimed declared
resource. -/
theorem c3_liveness :
    (∀ a : App, resources a = Except.ok () →
      ∀ p ∈ a.resources, p.1 ∈ a.init.resources ∨ p.1 ∈ a.idle.resources ∨
        ∃ q ∈ a.tasks, p.1 ∈ q.2.resources) ∧
    (∀ a : App,
      checkInitResources a a.init.resources = Except.ok () →
      (∃ p ∈ a.resources, isClaimed a p.1 = false) →
      ∃ n, resources a = Except.error (CheckError.unusedResource n) ∧
        (∃ r, (n, r) ∈ a.resources) ∧ isClaimed a n = false) := by
  constructor
  · intro a hok p hp
    exact (isClaimed_iff a p.1).mp
      ((checkUnused_ok_iff a a.resources).mp ((resources_ok_iff a).mp hok).2.1 p hp)
  · intro a hA hconf
    obtain ⟨n, he, hmem, hcl⟩ := checkUnused_conflict a a.resources hconf
    exact ⟨n, resources_error_passB a _ hA he, hmem, hcl⟩

/-- Witness for C3: Scenario D, where `B` is declared but claimed by
nobody. -/
theorem c3_liveness_witness :
    ("A" ∈ (Init.mk ["A"]).resources) ∧
    (∃ n, resources ⟨"dev", ⟨[]⟩, ⟨["A"]⟩,
        [("A", ⟨some "0"⟩), ("B", ⟨some "1"⟩)], []⟩ =
          Except.error (CheckError.unusedResource n) ∧
      (∃ r, (n, r) ∈ [("A", (⟨some "0"⟩ : Resource)), ("B", ⟨some "1"⟩)]) ∧
      isClaimed ⟨"dev", ⟨[]⟩, ⟨["A"]⟩,
        [("A", ⟨some "0"⟩), ("B", ⟨some "1"⟩)], []⟩ n = false) := by
  constructor
  · exact Or.resolve_right
      (c3_liveness.1 ⟨"dev", ⟨[]⟩, ⟨["A"]⟩, [("A", ⟨some "0"⟩)], []⟩
        (by decide) ("A", ⟨some "0"⟩) (by decide))
      (by decide)
  · exact c3_liveness.2 _ (by decide)
      ⟨("B", ⟨some "1"⟩), by decide, by decide⟩

/-- C4: every application the resource validator accepts has every
resource name claimed by any task present in the resource mapping; if all
names exist the reference pass succeeds; and when the first two passes
succeed but some task claims an undeclared name, the validator fails with
`UnknownResource` carrying both the task's name and the undeclared
resource name. -/
theorem c4_referential_integrity :
    (∀ a : App, resources a = Except.ok () →
      ∀ p ∈ a.tasks, ∀ r ∈ p.2.resources,
        Statics.containsKey a.resources r = true) ∧
    (∀ a : App, (∀ p ∈ a.tasks, ∀ r ∈ p.2.resources,
        Statics.containsKey a.resources r = true) →
      checkTaskRefs a a.tasks = Except.ok ()) ∧
    (∀ a : App,
      checkInitResources a a.init.resources = Except.ok () →
      checkUnused a a.resources = Except.ok () →
      (∃ p ∈ a.tasks, ∃ r ∈ p.2.resources,
        Statics.containsKey a.resources r = false) →
      ∃ tn r, resources a = Except.error (CheckError.unknownResource tn r) ∧
        (∃ t, (tn, t) ∈ a.tasks ∧ r ∈ t.resources) ∧
        Statics.containsKey a.resources r = false) := by
  refine ⟨?_, ?_, ?_⟩
  · intro a hok p hp r hr
    exact (checkTaskRefs1_ok_iff a.resources p.1 p.2.resources).mp
      ((checkTaskRefs_ok_iff a a.tasks).mp
        ((resources_ok_iff a).mp hok).2.2 p hp) r hr
  · intro a h
    exact (checkTaskRefs_ok_iff a a.tasks).mpr
      (fun p hp => (checkTaskRefs1_ok_iff _ _ _).mpr (h p hp))
  · intro a hA hB hconf
    obtain ⟨tn, r, he, hmem, hf⟩ := checkTaskRefs_conflict a a.tasks hconf
    refine ⟨tn, r, ?_, hmem, hf⟩
    rw [resources_eq_passC a hA hB]
    exact he

/-- Witness for C4: a task `T` claiming the undeclared resource `B`. -/
theorem c4_referential_integrity_witness :
    checkTaskRefs ⟨"dev", ⟨[]⟩, ⟨["A"]⟩, [("A", ⟨some "0"⟩)],
      [("T", ⟨Kind.Interrupt true, "t", 1, ["A"]⟩)]⟩
      [("T", ⟨Kind.Interrupt true, "t", 1, ["A"]⟩)] = Except.ok () ∧
    (∃ tn r, resources ⟨"dev", ⟨[]⟩, ⟨["A"]⟩, [("A", ⟨some "0"⟩)],
        [("T", ⟨Kind.Interrupt true, "t", 1, ["B"]⟩)]⟩ =
          Except.error (CheckError.unknownResource tn r) ∧
      (∃ t, (tn, t) ∈ [("T", (⟨Kind.Interrupt true, "t", 1, ["B"]⟩ : Task))] ∧
        r ∈ t.resources) ∧
      Statics.containsKey [("A", ⟨some "0"⟩)] r = false) := by
  constructor
  · exact c4_referential_integrity.2.1 _ (by decide)
  · exact c4_referential_integrity.2.2 _ (by decide) (by decide)
      ⟨("T", ⟨Kind.Interrupt true, "t", 1, ["B"]⟩), by decide, "B",
        by decide, by decide⟩

/-- C5: a task whose name is a reserved exception name fails with
`InvalidField` whenever the enabled flag is explicitly present, whatever
its value; with the flag absent (and a handler present) the built task's
kind is `Exception` for that reserved name. -/
theorem c5_exception_purity :
    ∀ (name : String) (t : RawTask) (e : Exception),
      Exception.fromName name = some e →
      ((∀ b, t.enabled = some b →
        task name t = Except.error CheckError.invalidField) ∧
       (t.enabled = none → ∀ p, t.path = some p →
        task name t =
          Except.ok ⟨Kind.Exception e, p, t.priority.getD 1, t.resources⟩)) := by
  intro name t e he
  constructor
  · intro b hb
    simp [task, he, hb]
  · intro hen p hp
    simp [task, he, hen, hp]

/-- Witness for C5: Scenario F (`SVCALL` with enabled=false) and `SVCALL`
with the flag omitted. -/
theorem c5_exception_purity_witness :
    task "SVCALL" ⟨some false, some "h", none, []⟩ =
      Except.error CheckError.invalidField ∧
    task "SVCALL" ⟨none, some "h", none, []⟩ =
      Except.ok ⟨Kind.Exception Exception.SVCALL, "h", 1, []⟩ := by
  constructor
  · exact (c5_exception_purity "SVCALL" ⟨some false, some "h", none, []⟩
      Exception.SVCALL (by decide)).1 false rfl
  · exact (c5_exception_purity "SVCALL" ⟨none, some "h", none, []⟩
      Exception.SVCALL (by decide)).2 rfl "h" rfl

/-- C6: a task whose name matches no reserved exception name fails with
`RedundantDefault` when enabled is explicitly `true`; with the flag
explicitly `false` or omitted (and a handler present) it succeeds as an
`Interrupt` whose enabled field is the declared value, `true` when
omitted. -/
theorem c6_default_redundancy :
    ∀ (name : String) (t : RawTask),
      Exception.fromName name = none →
      ((t.enabled = some true →
        task name t = Except.error CheckError.redundantDefault) ∧
       (t.enabled ≠ some true → ∀ p, t.path = some p →
        task name t =
          Except.ok ⟨Kind.Interrupt (t.enabled.getD true), p,
            t.priority.getD 1, t.resources⟩)) := by
  intro name t he
  constructor
  · intro hb
    simp [task, he, hb]
  · intro hne p hp
    have hbeq : (t.enabled == some true) = false := by
      cases ht : t.enabled with
      | none => rfl
      | some b =>
        cases b
        · rfl
        · exact absurd ht hne
    simp [task, he, hbeq, hp]

/-- Witness for C6: Scenario E (`EXTI0` with enabled=true), plus `EXTI0`
with enabled=false and with the flag omitted. -/
theorem c6_default_redundancy_witness :
    task "EXTI0" ⟨some true, some "h", none, []⟩ =
      Except.error CheckError.redundantDefault ∧
    task "EXTI0" ⟨some false, some "h", none, []⟩ =
      Except.ok ⟨Kind.Interrupt false, "h", 1, []⟩ ∧
    task "EXTI0" ⟨none, some "h", none, []⟩ =
      Except.ok ⟨Kind.Interrupt true, "h", 1, []⟩ := by
  refine ⟨?_, ?_, ?_⟩
  · exact (c6_default_redundancy "EXTI0" ⟨some true, some "h", none, []⟩
      (by decide)).1 rfl
  · exact (c6_default_redundancy "EXTI0" ⟨some false, some "h", none, []⟩
      (by decide)).2 (by decide) "h" rfl
  · exact (c6_default_redundancy "EXTI0" ⟨none, some "h", none, []⟩
      (by decide)).2 (by decide) "h" rfl

/-- C7: a successfully built task has the declared priority (default 1),
the raw declaration's resource set unchanged, and a path that was present
in the declaration; with a valid kind, a missing handler path fails with
`MissingField`; and Scenario A's `PENDSV` task resolves to kind
`Exception` with numeric identifier 14. -/
theorem c7_task_build :
    (∀ (name : String) (t : RawTask) (tk : Task),
      task name t = Except.ok tk →
      tk.priority = t.priority.getD 1 ∧ tk.resources = t.resources ∧
        t.path = some tk.path) ∧
    (∀ (name : String) (t : RawTask), t.path = none →
      (∀ e, Exception.fromName name = some e → t.enabled = none) →
      (Exception.fromName name = none → t.enabled ≠ some true) →
      task name t = Except.error CheckError.missingField) ∧
    (app ⟨"dev", ⟨[]⟩, ⟨["A"]⟩, [("A", ⟨some "0"⟩)],
        [("PENDSV", ⟨none, some "pendsv", none, []⟩)]⟩ =
      Except.ok ⟨"dev", ⟨[]⟩, ⟨["A"]⟩, [("A", ⟨some "0"⟩)],
        [("PENDSV", ⟨Kind.Exception Exception.PENDSV, "pendsv", 1, []⟩)]⟩ ∧
      Exception.nr Exception.PENDSV = 14) := by
  refine ⟨?_, ?_, by decide, rfl⟩
  · intro name t tk h
    cases he : Exception.fromName name with
    | some e =>
      cases hen : t.enabled with
      | some b => simp [task, he, hen] at h
      | none =>
        cases hp : t.path with
        | none => simp [task, he, hen, hp] at h
        | some p =>
          simp [task, he, hen, hp] at h
          subst h
          simp [hp]
    | none =>
      cases hen : t.enabled with
      | some b =>
        cases b with
        | true => simp [task, he, hen] at h
        | false =>
          cases hp : t.path with
          | none => simp [task, he, hen, hp] at h
          | some p =>
            simp [task, he, hen, hp] at h
            subst h
            simp [hp]
      | none =>
        cases hp : t.path with
        | none => simp [task, he, hen, hp] at h
        | some p =>
          simp [task, he, hen, hp] at h
          subst h
          simp [hp]
  · intro name t hpath h1 h2
    cases he : Exception.fromName name with
    | some e =>
      have hen := h1 e he
      simp [task, he, hen, hpath]
    | none =>
      have hne := h2 he
      have hbeq : (t.enabled == some true) = false := by
        cases ht : t.enabled with
        | none => rfl
        | some b =>
          cases b
          · rfl
          · exact absurd ht hne
      simp [task, he, hbeq, hpath]

/-- Witness for C7: the built `PENDSV` task of Scenario A and a task with
a missing handler path. -/
theorem c7_task_build_witness :
    ((⟨Kind.Exception Exception.PENDSV, "pendsv", 1, []⟩ : Task).priority =
      (⟨none, some "pendsv", none, []⟩ : RawTask).priority.getD 1) ∧
    task "EXTI0" ⟨none, none, some 2, ["A"]⟩ =
      Except.error CheckError.missingField := by
  constructor
  · exact (c7_task_build.1 "PENDSV" ⟨none, some "pendsv", none, []⟩
      ⟨Kind.Exception Exception.PENDSV, "pendsv", 1, []⟩ (by decide)).1
  · exact c7_task_build.2.1 "EXTI0" ⟨none, none, some 2, ["A"]⟩ rfl
      (fun e he => by simp [Exception.fromName] at he) (fun _ => by decide)

theorem checkInitResources_eq_firstError (a : App) (l : List String) :
    checkInitResources a l =
      firstError (l.filterMap (fun n => violationOf (checkInitName a n))) := by
  induction l with
  | nil => rfl
  | cons n ns ih =>
    rw [checkInitResources, List.filterMap_cons]
    cases hc : checkInitName a n with
    | error e => simp [violationOf, firstError]
    | ok u =>
      cases u
      simp [violationOf, ih]

theorem checkUnused_eq_firstError (a : App) (l : List (String × Resource)) :
    checkUnused a l = firstError (l.filterMap (fun p =>
      if isClaimed a p.1 then none
      else some (CheckError.unusedResource p.1))) := by
  induction l with
  | nil => rfl
  | cons p rest ih =>
    obtain ⟨name, r⟩ := p
    rw [checkUnused_cons, List.filterMap_cons]
    cases hc : isClaimed a name
    · simp [hc, firstError]
    · simp [hc, ih]

theorem checkTaskRefs1_eq_firstError (s : Statics) (tn : String) (l : List String) :
    checkTaskRefs1 s tn l = firstError (l.filterMap (fun r =>
      if Statics.containsKey s r then none
      else some (CheckError.unknownResource tn r))) := by
  induction l with
  | nil => rfl
  | cons r rs ih =>
    rw [checkTaskRefs1, List.filterMap_cons]
    cases hc : Statics.containsKey s r
    · simp [hc, firstError]
    · simp [hc, ih]

theorem firstError_append (xs ys : List CheckError) :
    firstError (xs ++ ys) =
      match firstError xs with
      | Except.ok _ => firstError ys
      | Except.error e => Except.error e := by
  cases xs with
  | nil => rfl
  | cons x xs => rfl

theorem checkTaskRefs_eq_firstError (a : App) (l : List (String × Task)) :
    checkTaskRefs a l = firstError ((l.map (fun p =>
      p.2.resources.filterMap (fun r =>
        if Statics.containsKey a.resources r then none
        else some (CheckError.unknownResource p.1 r)))).flatten) := by
  induction l with
  | nil => rfl
  | cons p rest ih =>
    obtain ⟨tn, t⟩ := p
    rw [checkTaskRefs, List.map_cons, List.flatten_cons, firstError_append,
      ← checkTaskRefs1_eq_firstError]
    cases hc : checkTaskRefs1 a.resources tn t.resources with
    | error e => rfl
    | ok u => cases u; exact ih

/-- C9: the validator is exactly the sequencing of the three passes in the
order init-exclusivity, liveness, referential integrity, where each pass's
violation list is computed by a total scan of its whole domain, a later
pass runs only when the earlier pass found no violation at all, and the
reported error is the first violation of the earliest failing pass — in
particular, on an input violating an earlier and a later pass the earlier
pass's error is the one reported. -/
theorem c9_pass_structure :
    (∀ a : App, resources a =
      seqPass (passAViolations a) (seqPass (passBViolations a)
        (firstError (passCViolations a)))) ∧
    (∀ (a : App) (e : CheckError) (es : List CheckError),
      passAViolations a = e :: es → resources a = Except.error e) ∧
    (∀ (a : App) (e : CheckError) (es : List CheckError),
      passAViolations a = [] → passBViolations a = e :: es →
        resources a = Except.error e) ∧
    (∀ (a : App) (e : CheckError) (es : List CheckError),
      passAViolations a = [] → passBViolations a = [] →
        passCViolations a = e :: es → resources a = Except.error e) := by
  have hmain : ∀ a : App, resources a =
      seqPass (passAViolations a) (seqPass (passBViolations a)
        (firstError (passCViolations a))) := by
    intro a
    rw [resources, checkInitResources_eq_firstError a a.init.resources,
      checkUnused_eq_firstError a a.resources,
      checkTaskRefs_eq_firstError a a.tasks]
    rw [passAViolations, passBViolations, passCViolations]
    cases a.init.resources.filterMap (fun n => violationOf (checkInitName a n)) with
    | cons e es => rfl
    | nil =>
      cases a.resources.filterMap (fun p => if isClaimed a p.1 then none
          else some (CheckError.unusedResource p.1)) with
      | cons e es => rfl
      | nil => rfl
  refine ⟨hmain, ?_, ?_, ?_⟩
  · intro a e es hA
    rw [hmain a, hA]
    rfl
  · intro a e es hA hB
    rw [hmain a, hA, hB]
    rfl
  · intro a e es hA hB hC
    rw [hmain a, hA, hB, hC]
    rfl

/-- Witness for C9: inputs violating passes A and C, passes B and C, and
pass C alone, each reporting the earliest failing pass's first
violation. -/
theorem c9_pass_structure_witness :
    resources ⟨"dev", ⟨[]⟩, ⟨["A"]⟩, [("A", ⟨none⟩)],
      [("T", ⟨Kind.Interrupt true, "t", 1, ["B"]⟩)]⟩ =
        Except.error (CheckError.resourceNotInitialized "A") ∧
    resources ⟨"dev", ⟨[]⟩, ⟨["A"]⟩, [("A", ⟨some "0"⟩), ("B", ⟨some "1"⟩)],
      [("T", ⟨Kind.Interrupt true, "t", 1, ["C"]⟩)]⟩ =
        Except.error (CheckError.unusedResource "B") ∧
    resources ⟨"dev", ⟨[]⟩, ⟨["A"]⟩, [("A", ⟨some "0"⟩)],
      [("T", ⟨Kind.Interrupt true, "t", 1, ["B"]⟩)]⟩ =
        Except.error (CheckError.unknownResource "T" "B") := by
  refine ⟨?_, ?_, ?_⟩
  · exact c9_pass_structure.2.1 _ (CheckError.resourceNotInitialized "A") []
      (by decide)
  · exact c9_pass_structure.2.2.1 _ (CheckError.unusedResource "B") []
      (by decide) (by decide)
  · exact c9_pass_structure.2.2.2 _ (CheckError.unknownResource "T" "B") []
      (by decide) (by decide) (by decide)

theorem contains_cons_ne {l : List String} {x n : String} (h : n ≠ x) :
    (x :: l).contains n = l.contains n := by
  cases hc : l.contains n
  · cases hd : (x :: l).contains n
    · rfl
    · exact absurd (by
        rcases List.mem_cons.mp (contains_iff.mp hd) with rfl | hm
        · exact absurd rfl h
        · exact absurd (contains_eq_true hm) (by rw [hc]; intro hcon; cases hcon))
        (fun hf => hf)
  · exact contains_eq_true (List.mem_cons.mpr (Or.inr (contains_iff.mp hc)))

theorem checkInitName_congr (a a' : App) (n : String)
    (hres : a'.resources = a.resources)
    (hidle : a'.idle.resources.contains n = a.idle.resources.contains n)
    (htasks : a'.tasks = a.tasks) :
    checkInitName a' n = checkInitName a n := by
  rw [checkInitName, checkInitName, hres, htasks]
  cases checkInitData a.resources n with
  | error e => rfl
  | ok u => exact if_congr (by rw [hidle]) rfl rfl

theorem isClaimed_congr (a a' : App) (n : String)
    (hinit : a'.init.resources = a.init.resources)
    (hidle : a'.idle.resources.contains n = a.idle.resources.contains n)
    (htasks : a'.tasks = a.tasks) :
    isClaimed a' n = isClaimed a n := by
  rw [isClaimed, isClaimed, hinit, htasks, hidle]

theorem checkInitResources_congr (a a' : App) (l : List String)
    (h : ∀ n ∈ l, checkInitName a' n = checkInitName a n) :
    checkInitResources a' l = checkInitResources a l := by
  induction l with
  | nil => rfl
  | cons n ns ih =>
    rw [checkInitResources, checkInitResources, h n (List.mem_cons_self n ns)]
    cases checkInitName a n with
    | error e => rfl
    | ok u => exact ih (fun m hm => h m (List.mem_cons.mpr (Or.inr hm)))

theorem checkUnused_congr (a a' : App) (l : List (String × Resource))
    (h : ∀ p ∈ l, isClaimed a' p.1 = isClaimed a p.1) :
    checkUnused a' l = checkUnused a l := by
  induction l with
  | nil => rfl
  | cons p rest ih =>
    obtain ⟨name, r⟩ := p
    rw [checkUnused_cons, checkUnused_cons,
      h (name, r) (List.mem_cons_self (name, r) rest)]
    cases isClaimed a name
    · rfl
    · simpa using ih (fun q hq => h q (List.mem_cons.mpr (Or.inr hq)))

theorem checkTaskRefs_congr (a a' : App) (l : List (String × Task))
    (hres : a'.resources = a.resources) :
    checkTaskRefs a' l = checkTaskRefs a l := by
  induction l with
  | nil => rfl
  | cons p rest ih =>
    obtain ⟨tn, t⟩ := p
    rw [checkTaskRefs, checkTaskRefs, hres]
    cases checkTaskRefs1 a.resources tn t.resources with
    | error e => rfl
    | ok u => exact ih

theorem resources_congr (a a' : App)
    (hres : a'.resources = a.resources)
    (hinitl : a'.init.resources = a.init.resources)
    (htasks : a'.tasks = a.tasks)
    (hInit : ∀ n ∈ a.init.resources, checkInitName a' n = checkInitName a n)
    (hCl : ∀ p ∈ a.resources, isClaimed a' p.1 = isClaimed a p.1) :
    resources a' = resources a := by
  rw [resources, resources, hres, hinitl, htasks,
    checkInitResources_congr a a' a.init.resources hInit,
    checkUnused_congr a a' a.resources hCl,
    checkTaskRefs_congr a a' a.tasks hres]

theorem containsKey_of_checkInitData_ok {s : Statics} {n : String}
    (h : checkInitData s n = Except.ok ()) :
    Statics.containsKey s n = true := by
  cases hg : Statics.get s n with
  | none => rw [checkInitData, hg] at h; simp at h
  | some r => rw [Statics.containsKey, hg]; rfl

/-- C10: `idle`'s claims are never validated against the resource
mapping — the validator's verdict is unchanged when `idle` additionally
claims a name absent from the mapping, so an otherwise valid application
with a dangling `idle` reference is accepted; by contrast the same
dangling name claimed by `init` is rejected (`must be a data resource`),
and claimed by a task is rejected (`UnknownResource`). -/
theorem c10_idle_claims_unchecked :
    (∀ (d : String) (li lin : List String) (s : Statics)
      (ts : List (String × Task)) (X : String),
      Statics.containsKey s X = false → X ∉ lin →
      resources ⟨d, ⟨X :: li⟩, ⟨lin⟩, s, ts⟩ =
        resources ⟨d, ⟨li⟩, ⟨lin⟩, s, ts⟩) ∧
    (∀ (d : String) (li lin : List String) (s : Statics)
      (ts : List (String × Task)) (X : String),
      resources ⟨d, ⟨li⟩, ⟨lin⟩, s, ts⟩ = Except.ok () →
      Statics.containsKey s X = false →
      resources ⟨d, ⟨X :: li⟩, ⟨lin⟩, s, ts⟩ = Except.ok ()) ∧
    (∀ (d : String) (li lin : List String) (s : Statics)
      (ts : List (String × Task)) (X : String),
      Statics.containsKey s X = false →
      resources ⟨d, ⟨li⟩, ⟨X :: lin⟩, s, ts⟩ =
        Except.error (CheckError.notADataResource X)) ∧
    (∀ (d : String) (li lin : List String) (s : Statics) (tn : String)
      (t : Task) (rest : List (String × Task)) (X : String),
      resources ⟨d, ⟨li⟩, ⟨lin⟩, s, (tn, t) :: rest⟩ = Except.ok () →
      Statics.containsKey s X = false →
      resources ⟨d, ⟨li⟩, ⟨lin⟩, s,
          (tn, ⟨t.kind, t.path, t.priority, X :: t.resources⟩) :: rest⟩ =
        Except.error (CheckError.unknownResource tn X)) := by
  have part1 : ∀ (d : String) (li lin : List String) (s : Statics)
      (ts : List (String × Task)) (X : String),
      Statics.containsKey s X = false → X ∉ lin →
      resources ⟨d, ⟨X :: li⟩, ⟨lin⟩, s, ts⟩ =
        resources ⟨d, ⟨li⟩, ⟨lin⟩, s, ts⟩ := by
    intro d li lin s ts X hX hXl
    apply resources_congr ⟨d, ⟨li⟩, ⟨lin⟩, s, ts⟩ ⟨d, ⟨X :: li⟩, ⟨lin⟩, s, ts⟩
      rfl rfl rfl
    · intro n hn
      exact checkInitName_congr _ _ n rfl
        (contains_cons_ne (fun heq => hXl (heq ▸ hn))) rfl
    · intro p hp
      have hne : p.1 ≠ X := by
        intro heq
        have h3 : Statics.containsKey s p.1 = true := by
          obtain ⟨name, r⟩ := p
          exact containsKey_of_mem hp
        rw [heq, hX] at h3
        exact Bool.noConfusion h3
      exact isClaimed_congr _ _ p.1 rfl (contains_cons_ne hne) rfl
  refine ⟨part1, ?_, ?_, ?_⟩
  · intro d li lin s ts X hok hX
    have hXl : X ∉ lin := by
      intro hmem
      have h2 := (checkInitName_ok_iff ⟨d, ⟨li⟩, ⟨lin⟩, s, ts⟩ X).mp
        ((checkInitResources_ok_iff ⟨d, ⟨li⟩, ⟨lin⟩, s, ts⟩ lin).mp
          ((resources_ok_iff ⟨d, ⟨li⟩, ⟨lin⟩, s, ts⟩).mp hok).1 X hmem)
      have h3 : Statics.containsKey s X = true :=
        containsKey_of_checkInitData_ok h2.1
      rw [h3] at hX
      exact Bool.noConfusion hX
    rw [part1 d li lin s ts X hX hXl]
    exact hok
  · intro d li lin s ts X hX
    have h4 := get_eq_none_of_not_containsKey hX
    have hname : checkInitName ⟨d, ⟨li⟩, ⟨X :: lin⟩, s, ts⟩ X =
        Except.error (CheckError.notADataResource X) := by
      simp [checkInitName, checkInitData, h4]
    simp [resources, checkInitResources, hname]
  · intro d li lin s tn t rest X hok hX
    have h1 := (resources_ok_iff ⟨d, ⟨li⟩, ⟨lin⟩, s, (tn, t) :: rest⟩).mp hok
    have hA4 : checkInitResources
        ⟨d, ⟨li⟩, ⟨lin⟩, s,
          (tn, ⟨t.kind, t.path, t.priority, X :: t.resources⟩) :: rest⟩ lin =
        Except.ok () := by
      apply (checkInitResources_ok_iff _ lin).mpr
      intro n hn
      have hname : checkInitData s n = Except.ok () ∧ n ∉ li ∧
          ∀ p ∈ (tn, t) :: rest, n ∉ p.2.resources :=
        (checkInitName_ok_iff ⟨d, ⟨li⟩, ⟨lin⟩, s, (tn, t) :: rest⟩ n).mp
          ((checkInitResources_ok_iff ⟨d, ⟨li⟩, ⟨lin⟩, s,
            (tn, t) :: rest⟩ lin).mp h1.1 n hn)
      apply (checkInitName_ok_iff _ n).mpr
      refine ⟨hname.1, hname.2.1, ?_⟩
      intro p hp
      rcases List.mem_cons.mp hp with rfl | hp
      · intro hmem
        rcases List.mem_cons.mp hmem with rfl | hmem
        · have h3 : Statics.containsKey s n = true :=
            containsKey_of_checkInitData_ok hname.1
          rw [h3] at hX
          exact Bool.noConfusion hX
        · exact hname.2.2 (tn, t) (List.mem_cons_self (tn, t) rest) hmem
      · exact hname.2.2 p (List.mem_cons.mpr (Or.inr hp))
    have hB4 : checkUnused
        ⟨d, ⟨li⟩, ⟨lin⟩, s,
          (tn, ⟨t.kind, t.path, t.priority, X :: t.resources⟩) :: rest⟩ s =
        Except.ok () := by
      apply (checkUnused_ok_iff _ s).mpr
      intro p hp
      apply (isClaimed_iff _ p.1).mpr
      have hcl := (isClaimed_iff ⟨d, ⟨li⟩, ⟨lin⟩, s, (tn, t) :: rest⟩ p.1).mp
        ((checkUnused_ok_iff ⟨d, ⟨li⟩, ⟨lin⟩, s, (tn, t) :: rest⟩ s).mp
          h1.2.1 p hp)
      rcases hcl with h | h | ⟨q, hq, hmem⟩
      · exact Or.inl h
      · exact Or.inr (Or.inl h)
      · refine Or.inr (Or.inr ?_)
        rcases List.mem_cons.mp hq with rfl | hq
        · exact ⟨(tn, ⟨t.kind, t.path, t.priority, X :: t.resources⟩),
            List.mem_cons_self _ _, List.mem_cons.mpr (Or.inr hmem)⟩
        · exact ⟨q, List.mem_cons.mpr (Or.inr hq), hmem⟩
    have hhead : checkTaskRefs1 s tn (X :: t.resources) =
        Except.error (CheckError.unknownResource tn X) := by
      rw [checkTaskRefs1]
      simp [hX]
    have hC4 : checkTaskRefs
        ⟨d, ⟨li⟩, ⟨lin⟩, s,
          (tn, ⟨t.kind, t.path, t.priority, X :: t.resources⟩) :: rest⟩
        ((tn, ⟨t.kind, t.path, t.priority, X :: t.resources⟩) :: rest) =
        Except.error (CheckError.unknownResource tn X) := by
      rw [checkTaskRefs]
      simp [hhead]
    have hfin := resources_eq_passC
      ⟨d, ⟨li⟩, ⟨lin⟩, s,
        (tn, ⟨t.kind, t.path, t.priority, X :: t.resources⟩) :: rest⟩
      hA4 hB4
    rw [hfin]
    exact hC4

/-- Witness for C10: an application with a dangling `idle` claim `X` is
accepted, while the same dangling name claimed by `init` or by a task is
rejected. -/
theorem c10_idle_claims_unchecked_witness :
    resources ⟨"dev", ⟨["X"]⟩, ⟨["A"]⟩, [("A", ⟨some "0"⟩)], []⟩ =
      resources ⟨"dev", ⟨[]⟩, ⟨["A"]⟩, [("A", ⟨some "0"⟩)], []⟩ ∧
    resources ⟨"dev", ⟨["X"]⟩, ⟨["A"]⟩, [("A", ⟨some "0"⟩)], []⟩ =
      Except.ok () ∧
    resources ⟨"dev", ⟨[]⟩, ⟨["X", "A"]⟩, [("A", ⟨some "0"⟩)], []⟩ =
      Except.error (CheckError.notADataResource "X") ∧
    resources ⟨"dev", ⟨[]⟩, ⟨[]⟩, [("A", ⟨some "0"⟩)],
        [("T", ⟨Kind.Interrupt true, "t", 1, ["X", "A"]⟩)]⟩ =
      Except.error (CheckError.unknownResource "T" "X") := by
  refine ⟨?_, ?_, ?_, ?_⟩
  · exact c10_idle_claims_unchecked.1 "dev" [] ["A"] [("A", ⟨some "0"⟩)] []
      "X" (by decide) (by decide)
  · exact c10_idle_claims_unchecked.2.1 "dev" [] ["A"] [("A", ⟨some "0"⟩)] []
      "X" (by decide) (by decide)
  · exact c10_idle_claims_unchecked.2.2.1 "dev" [] ["A"] [("A", ⟨some "0"⟩)]
      [] "X" (by decide)
  · exact c10_idle_claims_unchecked.2.2.2 "dev" [] [] [("A", ⟨some "0"⟩)]
      "T" ⟨Kind.Interrupt true, "t", 1, ["A"]⟩ [] "X" (by decide) (by decide)

/-- C8 counterexample: on Scenario B's input (`init` and task `EXTI0`
both claim `A`) the surfaced error's cause is `sharedWithTasks`, whose
message format has no name placeholder — a resource error that names no
resource, refuting the claim that every resource error is annotated with
the offending resource's name. -/
theorem c8_entity_naming_counterexample :
    app ⟨"dev", ⟨[]⟩, ⟨["A"]⟩, [("A", ⟨some "0"⟩)],
        [("EXTI0", ⟨none, some "exti0", none, ["A"]⟩)]⟩ =
      Except.error ⟨[ErrContext.checkingResources],
        CheckError.sharedWithTasks⟩ ∧
    CheckError.namedResource CheckError.sharedWithTasks = none :=
  ⟨by decide, rfl⟩

/-- C8 amended: every failure is either a per-task error wrapped in a
context naming the failing task, or a resource error wrapped in the fixed
`checking resources` context whose cause names the offending resource —
except the two `init`-sharing conflict errors, which carry no resource
name. -/
theorem c8_entity_naming_amended :
    ∀ (ra : RawApp) (e : ChainedError), app ra = Except.error e →
      (∃ k, e.context = [ErrContext.checkingTask k] ∧
        ∃ v, (k, v) ∈ ra.tasks ∧ task k v = Except.error e.cause) ∨
      (e.context = [ErrContext.checkingResources] ∧
        ((CheckError.namedResource e.cause).isSome = true ∨
          e.cause = CheckError.sharedWithIdle ∨
          e.cause = CheckError.sharedWithTasks)) := by
  intro ra e h
  rw [app] at h
  cases hc : checkTasks ra.tasks with
  | error ce =>
    rw [hc] at h
    simp at h
    subst h
    obtain ⟨k, v, hm, ht, hctx⟩ := checkTasks_error ra.tasks ce hc
    exact Or.inl ⟨k, hctx, v, hm, ht⟩
  | ok ts =>
    rw [hc] at h
    simp only [] at h
    cases hr : resources ⟨ra.device, ra.idle, ra.init, ra.resources, ts⟩ with
    | error e' =>
      rw [hr] at h
      simp at h
      subst h
      exact Or.inr ⟨rfl,
        resources_error_shape ⟨ra.device, ra.idle, ra.init, ra.resources, ts⟩
          e' hr⟩
    | ok u =>
      cases u
      rw [hr] at h
      simp at h

/-- Witness for the amended C8: a failing task declaration produces an
error wrapped in a context naming that task. -/
theorem c8_entity_naming_amended_witness :
    (∃ k, ([ErrContext.checkingTask "EXTI0"] : List ErrContext) =
        [ErrContext.checkingTask k] ∧
      ∃ v, (k, v) ∈ [("EXTI0", (⟨some true, some "h", none, []⟩ : RawTask))] ∧
        task k v = Except.error CheckError.redundantDefault) ∨
    (([ErrContext.checkingTask "EXTI0"] : List ErrContext) =
        [ErrContext.checkingResources] ∧
      ((CheckError.namedResource CheckError.redundantDefault).isSome = true ∨
        CheckError.redundantDefault = CheckError.sharedWithIdle ∨
        CheckError.redundantDefault = CheckError.sharedWithTasks)) :=
  c8_entity_naming_amended
    ⟨"dev", ⟨[]⟩, ⟨[]⟩, [], [("EXTI0", ⟨some true, some "h", none, []⟩)]⟩
    ⟨[ErrContext.checkingTask "EXTI0"], CheckError.redundantDefault⟩
    (by decide)

end Check
